import Mathlib

/-!
Verification of the ATL Happy Hour single-page directory (src/js/main.js).

The JavaScript source is shallowly embedded: CSV rows become the
`Restaurant` structure (missing columns are the empty string, matching
JS `undefined` falsiness under the `restaurant[col] && ...` guards),
the visibility predicate, the normalizing sort, the neighborhood
grouping, the filter-button state machine, the maps-URL address
extraction and the carousel navigation become Lean functions.
The current real-world weekday (`new Date().getDay()`) is passed as an
explicit `todayIndex : Nat` parameter (0 = Sunday .. 6 = Saturday).
-/

namespace AtlHappyHour

/-- Record parsed from one CSV data row. Recognized columns only; a column
absent from the sheet is modelled as the empty string, which is exactly
how the JS code observes it (`undefined` is falsy, `""` is falsy). -/
structure Restaurant where
  RestaurantName : String
  RestaurantURL : String
  MapsURL : String
  Neighborhood : String
  Deal : String
  Mon : String
  Tue : String
  Wed : String
  Thu : String
  Fri : String
deriving DecidableEq

/-- Property access `restaurant[col]` on a parsed CSV row: a recognized
column name yields the cell text, any other name yields the empty string
(JS would yield `undefined`, which every use site guards with `&&`). -/
def getField (r : Restaurant) (col : String) : String :=
  if col = "RestaurantName" then r.RestaurantName
  else if col = "RestaurantURL" then r.RestaurantURL
  else if col = "MapsURL" then r.MapsURL
  else if col = "Neighborhood" then r.Neighborhood
  else if col = "Deal" then r.Deal
  else if col = "Mon" then r.Mon
  else if col = "Tue" then r.Tue
  else if col = "Wed" then r.Wed
  else if col = "Thu" then r.Thu
  else if col = "Fri" then r.Fri
  else ""

/-- The `days` array of `isRestaurantVisible`. -/
def dayNames : List String := ["sun", "mon", "tue", "wed", "thu", "fri", "sat"]

/-- Maps day abbreviations to CSV column names (`getCsvColumn`). -/
def getCsvColumn (day : String) : String :=
  if day = "mon" then "Mon"
  else if day = "tue" then "Tue"
  else if day = "wed" then "Wed"
  else if day = "thu" then "Thu"
  else if day = "fri" then "Fri"
  else day

/-- JS `String.prototype.toLowerCase`, restricted to the ASCII mapping the
data uses. Written over the character list so the kernel can evaluate it
(core `String.toLower` recurses by well-founded byte positions). -/
def lowerStr (s : String) : String :=
  ⟨s.data.map Char.toLower⟩

/-- The per-day test inside `filterDays.some`:
`restaurant[col] && restaurant[col].toLowerCase() === 'yes'`. -/
def dealOnDay (r : Restaurant) (day : String) : Bool :=
  let v := getField r (getCsvColumn day)
  v != "" && lowerStr v == "yes"

/-- Embedding of `isRestaurantVisible`. The DOM reads (`happening-now`
checkbox, active day buttons) and the clock read become the parameters
`happeningNow`, `activeDays` and `todayIndex`. -/
def isRestaurantVisible (r : Restaurant) (happeningNow : Bool)
    (activeDays : List String) (todayIndex : Nat) : Bool :=
  let filterDays : List String :=
    if happeningNow && (1 ≤ todayIndex && todayIndex ≤ 5) then
      [dayNames.getD todayIndex ""]
    else if activeDays.length > 0 then activeDays
    else []
  if filterDays.length > 0 then
    filterDays.any (fun day => dealOnDay r day)
  else true

/-- The record of the round-trip example in the spec:
`Mon = "yes"`, `Tue = ""`, `Wed = "maybe later"`, all other fields empty. -/
def exRecord : Restaurant :=
  { RestaurantName := "", RestaurantURL := "", MapsURL := "",
    Neighborhood := "", Deal := "",
    Mon := "yes", Tue := "", Wed := "maybe later", Thu := "", Fri := "" }

/-- Record with a deal only on Wednesday. -/
def wedRecord : Restaurant :=
  { RestaurantName := "", RestaurantURL := "", MapsURL := "",
    Neighborhood := "", Deal := "",
    Mon := "", Tue := "", Wed := "yes", Thu := "", Fri := "" }

/-- Record with a deal only on Monday. -/
def monRecord : Restaurant :=
  { RestaurantName := "", RestaurantURL := "", MapsURL := "",
    Neighborhood := "", Deal := "",
    Mon := "yes", Tue := "", Wed := "", Thu := "", Fri := "" }

/-- The nonempty-cell guard is redundant in the strict-"yes" test: an
empty cell lowercases to the empty string, which is not "yes". -/
theorem dealOnDay_eq_toLower (r : Restaurant) (day : String) :
    dealOnDay r day = (lowerStr (getField r (getCsvColumn day)) == "yes") := by
  unfold dealOnDay
  by_cases h : getField r (getCsvColumn day) = ""
  · simp only [h]
    decide
  · simp [h]

/-- JS `String.prototype.trim`, over the character list so the kernel can
evaluate it; the whitespace set is restricted to the ASCII whitespace the
data can contain. -/
def trimStr (s : String) : String :=
  ⟨((s.data.dropWhile Char.isWhitespace).reverse.dropWhile Char.isWhitespace).reverse⟩

/-- Neighborhood group key as computed in `renderDesktopView` (and again
in `updateMobileCarousel`): `r.Neighborhood ? r.Neighborhood.trim() : "Uncategorized"`.
Note the truthiness test runs before the trim. -/
def groupKeyOf (r : Restaurant) : String :=
  if r.Neighborhood ≠ "" then trimStr r.Neighborhood else "Uncategorized"

/-- Record whose neighborhood cell is a single space. -/
def wsRecord : Restaurant :=
  { RestaurantName := "", RestaurantURL := "", MapsURL := "",
    Neighborhood := " ", Deal := "",
    Mon := "", Tue := "", Wed := "", Thu := "", Fri := "" }

/-- Case-insensitive sort key of the comparator in `loadCSVData`:
`(a.Neighborhood || "").toLowerCase()`, as the list of code points so the
order is the code-point lexicographic one (the `localeCompare` model for
the ASCII data the sheet holds). -/
def nbKey (r : Restaurant) : List Nat :=
  (lowerStr r.Neighborhood).data.map Char.toNat

/-- Comparator order of the sort in `loadCSVData`. -/
def nbLe (a b : Restaurant) : Prop := nbKey a ≤ nbKey b

instance : DecidableRel nbLe :=
  fun a b => inferInstanceAs (Decidable (nbKey a ≤ nbKey b))

instance : IsTotal Restaurant nbLe := ⟨fun a b => le_total (nbKey a) (nbKey b)⟩

instance : IsTrans Restaurant nbLe := ⟨fun _ _ _ h1 h2 => le_trans h1 h2⟩

/-- The sort in `loadCSVData`: JS `Array.prototype.sort` is specified to
be stable, so it is modelled as an insertion sort over the comparator
order. -/
def sortRows (rows : List Restaurant) : List Restaurant :=
  List.insertionSort nbLe rows

/-- Record after id assignment. -/
structure NRecord where
  id : Nat
  row : Restaurant
deriving DecidableEq

/-- Embedding of the `complete` callback of `loadCSVData`: sort by
neighborhood case-insensitively, then assign `row.id = index`. -/
def normalize (rows : List Restaurant) : List NRecord :=
  (sortRows rows).enum.map (fun p => ⟨p.1, p.2⟩)

/-- Restaurant record that only carries a neighborhood name. -/
def nbOnly (s : String) : Restaurant :=
  { RestaurantName := "", RestaurantURL := "", MapsURL := "",
    Neighborhood := s, Deal := "",
    Mon := "", Tue := "", Wed := "", Thu := "", Fri := "" }

/-- Inserting a row whose key is `K` in front of the first row it is at
most equal to commutes with filtering by key `K`. -/
theorem filter_orderedInsert_pos (a : Restaurant) (l : List Restaurant) (K : List Nat)
    (ha : nbKey a = K) :
    (List.orderedInsert nbLe a l).filter (fun b => nbKey b == K)
      = a :: l.filter (fun b => nbKey b == K) := by
  induction l with
  | nil => simp [List.orderedInsert, ha]
  | cons b l ih =>
    by_cases h : nbLe a b
    · rw [List.orderedInsert_of_le _ _ h]
      simp [ha]
    · have hb : ¬ (nbKey b == K) = true := by
        intro hbK
        exact h (le_of_eq (ha ▸ (eq_of_beq hbK).symm))
      simp only [List.orderedInsert, if_neg h, List.filter_cons, if_neg hb]
      exact ih

/-- Inserting a row whose key is not `K` leaves the key-`K` filter
unchanged. -/
theorem filter_orderedInsert_neg (a : Restaurant) (l : List Restaurant) (K : List Nat)
    (ha : nbKey a ≠ K) :
    (List.orderedInsert nbLe a l).filter (fun b => nbKey b == K)
      = l.filter (fun b => nbKey b == K) := by
  induction l with
  | nil => simp [List.orderedInsert, ha]
  | cons b l ih =>
    by_cases h : nbLe a b
    · rw [List.orderedInsert_of_le _ _ h]
      simp [ha]
    · simp only [List.orderedInsert, if_neg h, List.filter_cons, ih]

/-- Stability of the normalizing sort in filter form: for every key, the
rows carrying that key come out in their input order. -/
theorem sortRows_filter_eq (rows : List Restaurant) (K : List Nat) :
    (sortRows rows).filter (fun b => nbKey b == K)
      = rows.filter (fun b => nbKey b == K) := by
  unfold sortRows
  induction rows with
  | nil => rfl
  | cons a l ih =>
    show (List.orderedInsert nbLe a (List.insertionSort nbLe l)).filter _ = _
    by_cases ha : nbKey a = K
    · rw [filter_orderedInsert_pos a _ K ha, ih]
      simp [ha]
    · rw [filter_orderedInsert_neg a _ K ha, ih]
      simp [ha]

/-- C4 counterexample: a whitespace-only neighborhood passes the JS
truthiness test and only then gets trimmed, so its group key is the
empty string rather than "Uncategorized", and the derived group key is
not always non-empty as the claim states. -/
theorem groupKey_whitespace_cex :
    groupKeyOf wsRecord = "" ∧ groupKeyOf wsRecord ≠ "Uncategorized" := by
  decide

/-- C4 amended: the group key is the trimmed neighborhood when the raw
neighborhood is non-empty and "Uncategorized" when it is empty or
absent; it is non-empty whenever the neighborhood is empty or trims to
something non-empty, but a whitespace-only neighborhood yields the empty
group key. -/
theorem groupKey_spec (r : Restaurant) :
    (r.Neighborhood = "" → groupKeyOf r = "Uncategorized")
    ∧ (r.Neighborhood ≠ "" → groupKeyOf r = trimStr r.Neighborhood)
    ∧ (trimStr r.Neighborhood ≠ "" → groupKeyOf r ≠ "") := by
  refine ⟨fun h => by simp [groupKeyOf, h], fun h => by simp [groupKeyOf, h], fun h => ?_⟩
  unfold groupKeyOf
  by_cases hn : r.Neighborhood = ""
  · simp [hn]
  · simpa [hn] using h

/-- C4 witness: the empty neighborhood lands in "Uncategorized" and a
padded neighborhood is trimmed to a non-empty key. -/
theorem groupKey_spec_witness :
    groupKeyOf (nbOnly "") = "Uncategorized"
    ∧ groupKeyOf (nbOnly "  Midtown  ") = trimStr "  Midtown  "
    ∧ groupKeyOf (nbOnly "  Midtown  ") ≠ ""
    ∧ groupKeyOf (nbOnly "  Midtown  ") = "Midtown" :=
  ⟨(groupKey_spec (nbOnly "")).1 rfl,
   (groupKey_spec (nbOnly "  Midtown  ")).2.1 (by decide),
   (groupKey_spec (nbOnly "  Midtown  ")).2.2 (by decide),
   by decide⟩

/-- C5: `normalize` keeps the length of the input and assigns exactly the
ids 0..N-1 in ascending position of the sorted sequence, with no gaps
and no duplicates. -/
theorem normalize_ids (rows : List Restaurant) :
    (normalize rows).length = rows.length
    ∧ (normalize rows).map (fun nr => nr.id) = List.range rows.length := by
  constructor
  · simp [normalize, sortRows, List.length_insertionSort]
  · rw [normalize, List.map_map]
    have h1 : ((fun nr : NRecord => nr.id) ∘ fun p : Nat × Restaurant => (⟨p.1, p.2⟩ : NRecord))
        = Prod.fst := rfl
    rw [h1, List.enum_map_fst, sortRows, List.length_insertionSort]

/-- C6: the normalize sort orders rows by the lowercased neighborhood key
and is stable: for every key, the rows carrying that key keep their
relative input order, and on the concrete spec example the two case
variants of Midtown come out behind Buckhead in input order. -/
theorem sortRows_stable (rows : List Restaurant) (K : List Nat) :
    List.Sorted nbLe (sortRows rows)
    ∧ (sortRows rows).filter (fun b => nbKey b == K)
        = rows.filter (fun b => nbKey b == K)
    ∧ sortRows [nbOnly "Midtown", nbOnly "midtown", nbOnly "Buckhead"]
        = [nbOnly "Buckhead", nbOnly "Midtown", nbOnly "midtown"] :=
  ⟨List.sorted_insertionSort nbLe rows, sortRows_filter_eq rows K, by decide⟩

/-- Groups as built by the `groups` object of `renderDesktopView`. For
the non-numeric string keys the data produces, JS object iteration is
insertion order, so the object is modelled as an association list in
first-seen key order. -/
abbrev Groups := List (String × List NRecord)

/-- One step of `groups[nb] = groups[nb] || []; groups[nb].push(r)`. -/
def addToGroups : Groups → String → NRecord → Groups
  | [], k, r => [(k, [r])]
  | (k1, l) :: gs, k, r =>
    if k1 = k then (k1, l ++ [r]) :: gs
    else (k1, l) :: addToGroups gs k r

/-- The grouping loop of `renderDesktopView` over the loaded records. -/
def groupRecords (rs : List NRecord) : Groups :=
  rs.foldl (fun gs r => addToGroups gs (groupKeyOf r.row) r) []

/-- Member list stored under a key, empty when the key is absent. -/
def lookupGroup : Groups → String → List NRecord
  | [], _ => []
  | (k1, l) :: gs, k => if k1 = k then l else lookupGroup gs k

/-- Concatenation of the member lists in stored (first-seen) key order. -/
def joinGroups (gs : Groups) : List NRecord :=
  (gs.map Prod.snd).flatten

theorem lookupGroup_addToGroups (gs : Groups) (k k2 : String) (r : NRecord) :
    lookupGroup (addToGroups gs k r) k2
      = if k = k2 then lookupGroup gs k2 ++ [r] else lookupGroup gs k2 := by
  induction gs with
  | nil =>
    by_cases h : k = k2 <;> simp [addToGroups, lookupGroup, h]
  | cons p gs ih =>
    obtain ⟨k1, l⟩ := p
    by_cases h1 : k1 = k
    · subst h1
      by_cases h2 : k1 = k2
      · subst h2
        simp [addToGroups, lookupGroup]
      · simp [addToGroups, lookupGroup, h2]
    · by_cases h2 : k1 = k2
      · subst h2
        have hk : ¬ k = k1 := fun he => h1 he.symm
        simp [addToGroups, lookupGroup, h1, hk]
      · simp [addToGroups, lookupGroup, h1, h2, ih]

theorem lookupGroup_groupLoop (rs : List NRecord) (gs : Groups) (K : String) :
    lookupGroup (rs.foldl (fun gs r => addToGroups gs (groupKeyOf r.row) r) gs) K
      = lookupGroup gs K ++ rs.filter (fun r => groupKeyOf r.row == K) := by
  induction rs generalizing gs with
  | nil => simp
  | cons r rs ih =>
    rw [List.foldl_cons, ih, lookupGroup_addToGroups]
    by_cases h : groupKeyOf r.row = K <;> simp [h, List.filter_cons]

theorem joinGroups_addToGroups (gs : Groups) (k : String) (r : NRecord) :
    List.Perm (joinGroups (addToGroups gs k r)) (joinGroups gs ++ [r]) := by
  induction gs with
  | nil => simp [addToGroups, joinGroups]
  | cons p gs ih =>
    obtain ⟨k1, l⟩ := p
    by_cases h : k1 = k
    · simp only [addToGroups, if_pos h, joinGroups, List.map_cons, List.flatten_cons,
        List.append_assoc]
      exact (@List.perm_append_comm _ [r] _).append_left l
    · simp only [addToGroups, if_neg h, joinGroups, List.map_cons, List.flatten_cons,
        List.append_assoc]
      exact ih.append_left l

theorem joinGroups_groupLoop (rs : List NRecord) (gs : Groups) :
    List.Perm (joinGroups (rs.foldl (fun gs r => addToGroups gs (groupKeyOf r.row) r) gs))
      (joinGroups gs ++ rs) := by
  induction rs generalizing gs with
  | nil => simp
  | cons r rs ih =>
    rw [List.foldl_cons]
    refine (ih _).trans ?_
    have h2 := (joinGroups_addToGroups gs (groupKeyOf r.row) r).append_right rs
    rw [List.append_assoc] at h2
    simpa using h2

theorem keys_addToGroups (gs : Groups) (k : String) (r : NRecord) :
    (addToGroups gs k r).map Prod.fst
      = if k ∈ gs.map Prod.fst then gs.map Prod.fst else gs.map Prod.fst ++ [k] := by
  induction gs with
  | nil => simp [addToGroups]
  | cons p gs ih =>
    obtain ⟨k1, l⟩ := p
    by_cases h : k1 = k
    · subst h
      simp [addToGroups]
    · have hk : ¬ k = k1 := fun he => h he.symm
      by_cases h2 : k ∈ gs.map Prod.fst <;>
        simp [addToGroups, h, hk, h2, ih]

theorem keysNodup_groupLoop (rs : List NRecord) (gs : Groups)
    (h : (gs.map Prod.fst).Nodup) :
    (((rs.foldl (fun gs r => addToGroups gs (groupKeyOf r.row) r) gs)).map Prod.fst).Nodup := by
  induction rs generalizing gs with
  | nil => exact h
  | cons r rs ih =>
    rw [List.foldl_cons]
    apply ih
    rw [keys_addToGroups]
    by_cases hm : groupKeyOf r.row ∈ gs.map Prod.fst
    · simpa [hm] using h
    · simp [hm, List.nodup_append, h]

/-- Record with neighborhood A and id 0. -/
def cexA1 : NRecord := ⟨0, nbOnly "A"⟩

/-- Record with neighborhood B and id 1. -/
def cexB : NRecord := ⟨1, nbOnly "B"⟩

/-- Record with neighborhood A and id 2. -/
def cexA2 : NRecord := ⟨2, nbOnly "A"⟩

/-- C7 counterexample: for the record sequence with keys A, B, A the
concatenation of the group member lists in first-seen key order is the
reordering A, A, B and does not reproduce the input sequence. -/
theorem group_concat_cex :
    joinGroups (groupRecords [cexA1, cexB, cexA2]) ≠ [cexA1, cexB, cexA2]
    ∧ joinGroups (groupRecords [cexA1, cexB, cexA2]) = [cexA1, cexA2, cexB] := by
  decide

/-- C7 amended: grouping is exhaustive and order-preserving within each
group: the concatenation of all member lists in first-seen key order is
a permutation of the input, the member list of each key consists of
exactly the input records carrying that key in input order, and the
stored keys are distinct, so every input record lands in exactly one
group. The concatenation reproduces the input sequence itself only up to
this permutation (records of one key are pulled together). -/
theorem group_partition (rs : List NRecord) :
    List.Perm (joinGroups (groupRecords rs)) rs
    ∧ (∀ K, lookupGroup (groupRecords rs) K
          = rs.filter (fun r => groupKeyOf r.row == K))
    ∧ ((groupRecords rs).map Prod.fst).Nodup := by
  refine ⟨?_, fun K => ?_, ?_⟩
  · simpa [groupRecords, joinGroups] using joinGroups_groupLoop rs []
  · simpa [groupRecords, lookupGroup] using lookupGroup_groupLoop rs [] K
  · exact keysNodup_groupLoop rs [] (by simp)

/-- Weekday codes carried by the day filter buttons other than "all". -/
def weekdayCodes : List String := ["mon", "tue", "wed", "thu", "fri"]

/-- The `dayMapping` object of `initFilterListeners`. -/
def dayMapping (t : Nat) : Option String :=
  if t = 1 then some "mon"
  else if t = 2 then some "tue"
  else if t = 3 then some "wed"
  else if t = 4 then some "thu"
  else if t = 5 then some "fri"
  else none

/-- UI control surface as the listeners see it: the set of weekday
buttons carrying the active class and the happening-now checkbox. -/
structure FilterUI where
  sel : List String
  happeningNow : Bool
deriving DecidableEq

/-- `btn.classList.toggle("active")` on the button of day `d`. -/
def toggleDay (sel : List String) (d : String) : List String :=
  if d ∈ sel then sel.erase d else sel ++ [d]

/-- `activeDays`: the weekday buttons holding the active class, read in
button order. -/
def activeList (sel : List String) : List String :=
  weekdayCodes.filter (fun c => sel.contains c)

/-- Embedding of the weekday-button listener (the `data-day !== "all"`
branch): uncheck the happening-now toggle, toggle the day button,
recompute the active day list, and re-check happening-now exactly when
that list is the singleton of the current weekday. -/
def clickDay (s : FilterUI) (d : String) (todayIndex : Nat) : FilterUI :=
  let sel := toggleDay s.sel d
  let activeDays := activeList sel
  let hn :=
    match dayMapping todayIndex with
    | some c => activeDays == [c]
    | none => false
  ⟨sel, hn⟩

/-- Abstract control states of the filter surface named in the spec. -/
inductive CtrlState where
  | allDays : CtrlState
  | specificDays : List String → CtrlState
  | happeningNow : CtrlState
deriving DecidableEq

/-- Control state the UI is in: the checked happening-now toggle wins,
otherwise the active weekday set decides. -/
def classify (s : FilterUI) : CtrlState :=
  if s.happeningNow then CtrlState.happeningNow
  else if activeList s.sel = [] then CtrlState.allDays
  else CtrlState.specificDays (activeList s.sel)

/-- C8: a weekday-button press first clears HAPPENING_NOW (the result
never depends on the prior checkbox value), then toggles that day; the
resulting control state is HAPPENING_NOW when the resulting active set
is exactly the singleton of the current weekday (today Monday-Friday),
else ALL_DAYS when the set is empty, else SPECIFIC_DAYS of the set. -/
theorem clickDay_transition (s : FilterUI) (d : String) (t : Nat)
    (_hd : d ∈ weekdayCodes) :
    clickDay s d t = clickDay ⟨s.sel, false⟩ d t
    ∧ (clickDay s d t).sel = toggleDay s.sel d
    ∧ classify (clickDay s d t)
        = (match dayMapping t with
           | some c =>
             if activeList (toggleDay s.sel d) = [c] then CtrlState.happeningNow
             else if activeList (toggleDay s.sel d) = [] then CtrlState.allDays
             else CtrlState.specificDays (activeList (toggleDay s.sel d))
           | none =>
             if activeList (toggleDay s.sel d) = [] then CtrlState.allDays
             else CtrlState.specificDays (activeList (toggleDay s.sel d))) := by
  refine ⟨rfl, rfl, ?_⟩
  unfold classify clickDay
  cases hm : dayMapping t with
  | none => simp [hm]
  | some c =>
    simp only [hm]
    by_cases he : activeList (toggleDay s.sel d) = [c]
    · simp [he]
    · simp [he]

/-- C8 witness: on Wednesday, selecting wed from the empty set
auto-transitions to HAPPENING_NOW; selecting wed while mon is active
(even from the checked happening-now state) gives SPECIFIC_DAYS of mon
and wed; deselecting the only active day gives ALL_DAYS. -/
theorem clickDay_transition_witness :
    (clickDay ⟨["mon"], true⟩ "wed" 3).sel = toggleDay ["mon"] "wed"
    ∧ classify (clickDay ⟨[], false⟩ "wed" 3) = CtrlState.happeningNow
    ∧ classify (clickDay ⟨["mon"], true⟩ "wed" 3) = CtrlState.specificDays ["mon", "wed"]
    ∧ classify (clickDay ⟨["mon"], false⟩ "mon" 2) = CtrlState.allDays := by
  refine ⟨(clickDay_transition ⟨["mon"], true⟩ "wed" 3 (by decide)).2.1, ?_, by decide, by decide⟩
  rw [(clickDay_transition ⟨[], false⟩ "wed" 3 (by decide)).2.2]
  decide

/-- Scheme characters after the first one, per the WHATWG URL scheme
grammar: ASCII alphanumeric, plus, minus, dot. -/
def isSchemeTail (c : Char) : Bool :=
  c.isAlpha || c.isDigit || c == '+' || c == '-' || c == '.'

/-- Scans for the colon that ends a URL scheme; fails when a character
outside the scheme grammar or the end of input comes first. On success
returns the characters after the colon. -/
def afterScheme : List Char → Option (List Char)
  | [] => none
  | c :: cs =>
    if c = ':' then some cs
    else if isSchemeTail c then afterScheme cs
    else none

/-- Model of the browser URL constructor as the source uses it: parsing
succeeds iff the input is an absolute URL, an ASCII-alpha-led scheme
terminated by a colon (`new URL(url)` throws otherwise, and the source
catches the throw); on success the result is the query component, the
characters strictly between the first question mark and the fragment.
Percent-decoding is omitted: the addresses in the sheet round-trip
unchanged. -/
def parseURL (s : String) : Option String :=
  match s.data with
  | [] => none
  | c :: cs =>
    if c.isAlpha then
      match afterScheme cs with
      | some rest =>
        some ⟨((rest.takeWhile (fun x => x != '#')).dropWhile (fun x => x != '?')).drop 1⟩
      | none => none
    else none

/-- Model of `URLSearchParams.get`: split the query on ampersands, drop
empty pairs, and return the value of the first pair whose name (the part
before the first equals sign) matches; a name-only pair has value "". -/
def splitOnAmp : List Char → List (List Char)
  | [] => [[]]
  | c :: cs =>
    if c = '&' then [] :: splitOnAmp cs
    else
      match splitOnAmp cs with
      | [] => [[c]]
      | p :: ps => (c :: p) :: ps

/-- Lookup of one query parameter by name, see `splitOnAmp`. -/
def getParam (query : String) (name : String) : Option String :=
  let pairs := (splitOnAmp query.data).filter (fun p => !p.isEmpty)
  match pairs.find? (fun p => p.takeWhile (fun x => x != '=') == name.data) with
  | some p => some ⟨(p.dropWhile (fun x => x != '=')).drop 1⟩
  | none => none

/-- Embedding of `getAddressFromMapsURL`. The absent CSV cell is the
`none` input; the JS falsiness test also catches the empty string. The
try/catch around the URL constructor becomes the `parseURL` option, so
the function is total: it never throws. -/
def getAddressFromMapsURL (url : Option String) : Option String :=
  match url with
  | none => none
  | some u =>
    if u = "" then none
    else
      match parseURL u with
      | none => none
      | some query => getParam query "q"

/-- The guard of `createOrUpdateMarker`: geocoding starts only when no
marker exists yet and the address extraction produced a value. -/
def startsGeocode (hasMarker : Bool) (mapsUrl : Option String) : Bool :=
  !hasMarker && (getAddressFromMapsURL mapsUrl).isSome

/-- C9: address extraction returns the `q` query parameter of a parsable
maps URL, returns nothing (rather than throwing) when the URL is absent
or unparsable, and a record without an extracted address never starts
geocoding, so it is never pinned. -/
theorem address_extraction (url : Option String) :
    (url = none → getAddressFromMapsURL url = none)
    ∧ (∀ u, url = some u → parseURL u = none → getAddressFromMapsURL url = none)
    ∧ (∀ u query a, url = some u → u ≠ "" → parseURL u = some query →
        getParam query "q" = some a → getAddressFromMapsURL url = some a)
    ∧ (getAddressFromMapsURL url = none → ∀ b, startsGeocode b url = false) := by
  refine ⟨fun h => by subst h; rfl, fun u hu hp => ?_, fun u query a hu hne hp hq => ?_,
    fun h b => by simp [startsGeocode, h]⟩
  · subst hu
    unfold getAddressFromMapsURL
    by_cases he : u = ""
    · simp [he]
    · simp [he, hp]
  · subst hu
    simp [getAddressFromMapsURL, hne, hp, hq]

/-- C9 witness: the absent URL and the unparsable URL yield no address
and never start geocoding; a well-formed maps URL yields its `q`
parameter. -/
theorem address_extraction_witness :
    getAddressFromMapsURL none = none
    ∧ getAddressFromMapsURL (some "not a url") = none
    ∧ getAddressFromMapsURL (some "https://maps.google.com/?q=10 Main St")
        = some "10 Main St"
    ∧ startsGeocode false (some "not a url") = false :=
  ⟨(address_extraction none).1 rfl,
   (address_extraction (some "not a url")).2.1 "not a url" rfl (by decide),
   (address_extraction (some "https://maps.google.com/?q=10 Main St")).2.2.1
     "https://maps.google.com/?q=10 Main St" "q=10 Main St" "10 Main St"
     rfl (by decide) (by decide) (by decide),
   (address_extraction (some "not a url")).2.2.2 (by decide) false⟩

/-- One slide of the mobile carousel: `{ neighborhood, restaurant }`. -/
structure Slide where
  neighborhood : String
  restaurant : NRecord
deriving DecidableEq

/-- The mobile carousel state: the `slidesData` array and the
`currentSlideIndex`. JS numbers are modelled as integers so the
decrement in `prevSlide` and the `length - 1` in `nextSlide` stay
exact below zero. -/
structure CarouselState where
  slidesData : List Slide
  currentSlideIndex : Int
deriving DecidableEq

/-- `prevSlide`: `Math.max(0, currentSlideIndex - 1)`. -/
def prevSlide (s : CarouselState) : CarouselState :=
  { s with currentSlideIndex := max 0 (s.currentSlideIndex - 1) }

/-- `nextSlide`: `Math.min(slidesData.length - 1, currentSlideIndex + 1)`. -/
def nextSlide (s : CarouselState) : CarouselState :=
  { s with currentSlideIndex := min ((s.slidesData.length : Int) - 1) (s.currentSlideIndex + 1) }

/-- C10: on a non-empty slide list both navigation operations keep the
index inside the bounds 0 .. length - 1 and leave the slide list itself
unchanged. -/
theorem carousel_nav_bounds (s : CarouselState)
    (hne : s.slidesData ≠ [])
    (h0 : 0 ≤ s.currentSlideIndex)
    (h1 : s.currentSlideIndex ≤ (s.slidesData.length : Int) - 1) :
    (0 ≤ (prevSlide s).currentSlideIndex
      ∧ (prevSlide s).currentSlideIndex ≤ ((prevSlide s).slidesData.length : Int) - 1)
    ∧ (0 ≤ (nextSlide s).currentSlideIndex
      ∧ (nextSlide s).currentSlideIndex ≤ ((nextSlide s).slidesData.length : Int) - 1)
    ∧ (prevSlide s).slidesData = s.slidesData
    ∧ (nextSlide s).slidesData = s.slidesData := by
  have hlen : 1 ≤ (s.slidesData.length : Int) := by
    have := List.length_pos.mpr hne
    omega
  refine ⟨⟨?_, ?_⟩, ⟨?_, ?_⟩, rfl, rfl⟩ <;>
    simp only [prevSlide, nextSlide] <;> omega

/-- Concrete one-slide carousel state at index 0. -/
def oneSlideState : CarouselState :=
  ⟨[⟨"Midtown", ⟨0, nbOnly "Midtown"⟩⟩], 0⟩

/-- C10 witness: the one-slide carousel at index 0. -/
theorem carousel_nav_bounds_witness :
    (0 ≤ (prevSlide oneSlideState).currentSlideIndex
      ∧ (prevSlide oneSlideState).currentSlideIndex
          ≤ ((prevSlide oneSlideState).slidesData.length : Int) - 1)
    ∧ (0 ≤ (nextSlide oneSlideState).currentSlideIndex
      ∧ (nextSlide oneSlideState).currentSlideIndex
          ≤ ((nextSlide oneSlideState).slidesData.length : Int) - 1)
    ∧ (prevSlide oneSlideState).slidesData = oneSlideState.slidesData
    ∧ (nextSlide oneSlideState).slidesData = oneSlideState.slidesData :=
  carousel_nav_bounds oneSlideState (by decide) (by decide) (by decide)

/-- C1: in SPECIFIC_DAYS mode (happeningNow false, activeWeekdays
non-empty), `isRestaurantVisible` returns true iff some selected day
field equals "yes" case-insensitively; free text such as "maybe later"
and empty fields do not match, and with no day restriction (ALL_DAYS)
every record is visible. -/
theorem isVisible_specific_days (r : Restaurant) (activeDays : List String) (t : Nat) :
    (activeDays ≠ [] →
      isRestaurantVisible r false activeDays t
        = activeDays.any (fun d => lowerStr (getField r (getCsvColumn d)) == "yes"))
    ∧ isRestaurantVisible r false [] t = true := by
  constructor
  · intro h
    have hl : 0 < activeDays.length := List.length_pos.mpr h
    unfold isRestaurantVisible
    simp only [Bool.false_and, Bool.false_eq_true, if_false, if_pos hl]
    exact congrArg activeDays.any (funext (dealOnDay_eq_toLower r))
  · simp [isRestaurantVisible]

/-- C1 witness: the round-trip record of the spec, Mon = "yes", Tue = "",
Wed = "maybe later", evaluated in SPECIFIC_DAYS mode for mon, wed, tue
and in ALL_DAYS mode. -/
theorem isVisible_specific_days_witness :
    (isRestaurantVisible exRecord false ["mon"] 2
       = (["mon"].any (fun d => lowerStr (getField exRecord (getCsvColumn d)) == "yes")))
    ∧ (isRestaurantVisible exRecord false ["wed"] 2
       = (["wed"].any (fun d => lowerStr (getField exRecord (getCsvColumn d)) == "yes")))
    ∧ (isRestaurantVisible exRecord false ["tue"] 2
       = (["tue"].any (fun d => lowerStr (getField exRecord (getCsvColumn d)) == "yes")))
    ∧ isRestaurantVisible exRecord false [] 2 = true
    ∧ isRestaurantVisible exRecord false ["mon"] 2 = true
    ∧ isRestaurantVisible exRecord false ["wed"] 2 = false
    ∧ isRestaurantVisible exRecord false ["tue"] 2 = false :=
  ⟨(isVisible_specific_days exRecord ["mon"] 2).1 (by decide),
   (isVisible_specific_days exRecord ["wed"] 2).1 (by decide),
   (isVisible_specific_days exRecord ["tue"] 2).1 (by decide),
   (isVisible_specific_days exRecord [] 2).2,
   by decide, by decide, by decide⟩

/-- C2: with happeningNow true and today Monday through Friday, the
effective day filter is exactly today: the result ignores `activeDays`
entirely and equals the strict "yes" test on the today column. -/
theorem isVisible_happening_now_override (r : Restaurant) (activeDays : List String)
    (t : Nat) (h1 : 1 ≤ t) (h5 : t ≤ 5) :
    isRestaurantVisible r true activeDays t = isRestaurantVisible r true [] t
    ∧ isRestaurantVisible r true activeDays t = dealOnDay r (dayNames.getD t "") := by
  constructor
  · unfold isRestaurantVisible
    simp [h1, h5]
  · unfold isRestaurantVisible
    simp [h1, h5]

/-- C2 witness: today = Wednesday (index 3), activeDays = mon; the record
with Wed = "yes" is visible, the record with only Mon = "yes" is not. -/
theorem isVisible_happening_now_override_witness :
    isRestaurantVisible wedRecord true ["mon"] 3 = dealOnDay wedRecord (dayNames.getD 3 "")
    ∧ isRestaurantVisible monRecord true ["mon"] 3 = dealOnDay monRecord (dayNames.getD 3 "")
    ∧ isRestaurantVisible wedRecord true ["mon"] 3 = true
    ∧ isRestaurantVisible monRecord true ["mon"] 3 = false :=
  ⟨(isVisible_happening_now_override wedRecord ["mon"] 3 (by decide) (by decide)).2,
   (isVisible_happening_now_override monRecord ["mon"] 3 (by decide) (by decide)).2,
   by decide, by decide⟩

/-- C3: with happeningNow true on a weekend (today index 0 or 6) the
happening-now branch never fires: the result is as if happeningNow were
false, falling through to `activeDays`; with empty `activeDays` every
record is visible. -/
theorem isVisible_weekend_fallback (r : Restaurant) (activeDays : List String)
    (t : Nat) (h : t = 0 ∨ t = 6) :
    isRestaurantVisible r true activeDays t = isRestaurantVisible r false activeDays t
    ∧ (activeDays = [] → isRestaurantVisible r true activeDays t = true) := by
  rcases h with h | h <;> subst h <;>
    exact ⟨by simp [isRestaurantVisible], fun he => by subst he; simp [isRestaurantVisible]⟩

/-- C3 witness: Saturday (index 6), HAPPENING_NOW control state with its
empty weekday set: a record with only a Monday deal is still visible. -/
theorem isVisible_weekend_fallback_witness :
    isRestaurantVisible monRecord true [] 6 = isRestaurantVisible monRecord false [] 6
    ∧ isRestaurantVisible monRecord true [] 6 = true :=
  ⟨(isVisible_weekend_fallback monRecord [] 6 (Or.inr rfl)).1,
   (isVisible_weekend_fallback monRecord [] 6 (Or.inr rfl)).2 rfl⟩

end AtlHappyHour
